import Mathlib

/-!
# LifeFlow — formal model of the task-planner core

A shallow embedding of the LifeFlow application (`src/script.js` and the
service worker `src/unnamed/part_000`) in Lean 4, together with theorems
settling the specification claims.

Modelling conventions:

* JavaScript objects become Lean structures; `null`-able fields become
  `Option`; JS string falsiness (`"" || x`) is modelled explicitly
  (`jsOrNull`, `jsOrStr`, `jsTruthy`).
* Nondeterministic platform inputs (`generateId()`, `new Date()`)
  become explicit parameters of the operations that consume them.
* JS `Date` parsing and local-calendar-day computation are platform
  services; the model is parametrised over them by a `Clock` record
  (`dv` = millisecond value of a parsed date string, `dayOf` = local
  calendar day index of an instant, `now` = the current instant).
* `Array.prototype.sort` with a consistent comparator produces the
  unique stable sorting; it is modelled by a stable insertion sort.
* Mutating methods that also persist and emit events return the emitted
  event list and a saved flag alongside the new collection.
-/

namespace LifeFlow

/-- Subtask record: `{id, text, done}` (see `getCurrentSubtasks`). -/
structure Subtask where
  id : String
  text : String
  done : Bool
deriving DecidableEq, Repr

/-- Task record, field for field as built by `TaskManager.createTask`. -/
structure Task where
  id : String
  title : String
  desc : String
  projectId : Option String
  due : Option String
  tags : List String
  subtasks : List Subtask
  done : Bool
  recurring : Bool
  created : String
  status : String
deriving DecidableEq, Repr

/-- Project record as built by `ProjectManager.createProject`. -/
structure Project where
  id : String
  name : String
  color : String
  view : String
deriving DecidableEq, Repr

/-- JS truthiness of a nullable string: `null` and `""` are falsy. -/
def jsTruthy : Option String → Bool
  | none => false
  | some s => s ≠ ""

/-- JS `x || null` for a nullable string `x`: `""` collapses to `null`. -/
def jsOrNull : Option String → Option String
  | none => none
  | some s => if s = "" then none else some s

/-- JS `x || d` for a nullable string `x` and string default `d`. -/
def jsOrStr : Option String → String → String
  | none, d => d
  | some s, d => if s = "" then d else s

/-- Input object accepted by `TaskManager.createTask`. -/
structure TaskData where
  title : String
  desc : Option String := none
  projectId : Option String := none
  due : Option String := none
  tags : Option (List String) := none
  subtasks : Option (List Subtask) := none
  recurring : Option Bool := none
  status : Option String := none
deriving DecidableEq, Repr

/-- `TaskManager.createTask(taskData)`: builds the task record (defaults
via JS `||`), appends it to the collection and returns it.  The generated
id and the creation timestamp are explicit parameters. -/
def createTask (tasks : List Task) (td : TaskData) (id created : String) :
    Task × List Task :=
  let t : Task :=
    { id := id
      title := td.title
      desc := td.desc.getD ""
      projectId := jsOrNull td.projectId
      due := jsOrNull td.due
      tags := td.tags.getD []
      subtasks := td.subtasks.getD []
      done := false
      recurring := td.recurring.getD false
      created := created
      status := jsOrStr td.status "todo" }
  (t, tasks ++ [t])

/-- Partial update object passed to `TaskManager.updateTask`
(`Object.assign(task, updates)` overwrites exactly the supplied keys;
no call site in the source ever supplies `id` or `created`). -/
structure TaskUpdates where
  title : Option String := none
  desc : Option String := none
  projectId : Option (Option String) := none
  due : Option (Option String) := none
  tags : Option (List String) := none
  subtasks : Option (List Subtask) := none
  done : Option Bool := none
  recurring : Option Bool := none
  status : Option String := none
deriving DecidableEq, Repr

/-- `Object.assign(task, updates)`: fieldwise overwrite of supplied keys. -/
def applyUpdates (t : Task) (u : TaskUpdates) : Task :=
  { t with
    title := u.title.getD t.title
    desc := u.desc.getD t.desc
    projectId := u.projectId.getD t.projectId
    due := u.due.getD t.due
    tags := u.tags.getD t.tags
    subtasks := u.subtasks.getD t.subtasks
    done := u.done.getD t.done
    recurring := u.recurring.getD t.recurring
    status := u.status.getD t.status }

/-- Events emitted on the event bus by the entity managers. -/
inductive Event where
  | taskCreated (t : Task)
  | taskUpdated (t : Task)
  | taskDeleted (t : Task)
  | projectCreated (p : Project)
  | projectUpdated (p : Project)
  | projectDeleted (p : Project)
deriving DecidableEq, Repr

/-- `TaskManager.getTask(id)`: first task whose `id` matches. -/
def getTask (tasks : List Task) (tid : String) : Option Task :=
  tasks.find? (fun t => t.id = tid)

/-- In-place mutation of the first task whose `id` matches
(`Object.assign` on the object found by `getTask`). -/
def updateFirst : List Task → String → TaskUpdates → List Task
  | [], _, _ => []
  | t :: ts, tid, u =>
    if t.id = tid then applyUpdates t u :: ts
    else t :: updateFirst ts tid u

/-- Result of a mutating `TaskManager` operation: returned value, new
collection, events emitted, and whether `save()` ran. -/
structure TaskOpResult where
  ret : Option Task
  tasks : List Task
  events : List Event
  saved : Bool
deriving DecidableEq, Repr

/-- `TaskManager.updateTask(id, updates)`: `null` and no effect when the
id is absent; otherwise assign, save, emit `task:updated`, return task. -/
def updateTask (tasks : List Task) (tid : String) (u : TaskUpdates) :
    TaskOpResult :=
  match getTask tasks tid with
  | none => ⟨none, tasks, [], false⟩
  | some t =>
    let t2 := applyUpdates t u
    ⟨some t2, updateFirst tasks tid u, [Event.taskUpdated t2], true⟩

/-- `TaskManager.deleteTask(id)`: `findIndex` + `splice` of the first
match; silently does nothing when the id is absent. -/
def deleteTask : List Task → String → List Task × List Event × Bool
  | [], _ => ([], [], false)
  | t :: ts, tid =>
    if t.id = tid then (ts, [Event.taskDeleted t], true)
    else
      let r := deleteTask ts tid
      (t :: r.1, r.2.1, r.2.2)

/-- `TaskManager.toggleTask(id)`: negate `done` of the first task whose
id matches; no effect when the id is absent. -/
def toggleTask : List Task → String → List Task
  | [], _ => []
  | t :: ts, tid =>
    if t.id = tid then { t with done := !t.done } :: ts
    else t :: toggleTask ts tid

/-- Platform clock services used by the date helpers: `dv` is the
millisecond value of `new Date(s)` for a (valid) date string `s`,
`dayOf` maps an instant to its local calendar-day index (two instants
have equal `toDateString()` iff they have equal `dayOf`), `now` is the
current instant, `startOfDay` is today's local midnight
(`setHours(0,0,0,0)`), and `addDays n` is `now` shifted by `n` local
calendar days keeping the time of day (`setDate(getDate()+n)`). -/
structure Clock where
  dv : String → Int
  dayOf : Int → Int
  now : Int
  startOfDay : Int
  addDays : Int → Int
deriving Inhabited

/-- Utility `isToday(dateStr)`: falsy date strings are never today;
otherwise compare local calendar days of the parsed date and of now. -/
def isToday (clk : Clock) (d : Option String) : Bool :=
  match jsOrNull d with
  | none => false
  | some s => clk.dayOf (clk.dv s) == clk.dayOf clk.now

/-- Utility `isWithinDays(dateStr, days)`: falsy date strings are never
within range; otherwise `today <= date <= now+days` where `today` is
local midnight. -/
def isWithinDays (clk : Clock) (d : Option String) (days : Int) : Bool :=
  match jsOrNull d with
  | none => false
  | some s => clk.startOfDay ≤ clk.dv s && clk.dv s ≤ clk.addDays days

/-- The due date as the sort comparator sees it: `a.due &&` treats
`null` and `""` as absent. -/
def jsDue (t : Task) : Option String := jsOrNull t.due

/-- The comparator passed to `filtered.sort` in `TaskManager.filterTasks`:
incomplete before complete, then ascending due date, dated before
undated, ties among undated by descending creation time. -/
def cmpTask (dv : String → Int) (a b : Task) : Int :=
  if a.done ≠ b.done then (if a.done then 1 else -1)
  else
    match jsDue a, jsDue b with
    | some da, some db => dv da - dv db
    | some _, none => -1
    | none, some _ => 1
    | none, none => dv b.created - dv a.created

/-- Stable insertion of `a` into `l`: `a` goes before the first element
it compares strictly below, hence after all elements it ties with. -/
def insertCmp (cmp : α → α → Int) (a : α) : List α → List α
  | [] => [a]
  | b :: l => if cmp a b < 0 then a :: b :: l else b :: insertCmp cmp a l

/-- Stable insertion sort; for a consistent comparator this is the
sorting `Array.prototype.sort` (stable per the JS spec) produces. -/
def sortCmp (cmp : α → α → Int) (l : List α) : List α :=
  l.foldl (fun acc a => insertCmp cmp a acc) []

/-- `TaskManager.filterTasks(view, projectId)`: filter by project when a
truthy `projectId` is given, else by the named view (unrecognized view
names filter nothing), then sort with `cmpTask`. -/
def filterTasks (clk : Clock) (tasks : List Task) (view : String)
    (projectId : Option String) : List Task :=
  let filtered :=
    if jsTruthy projectId then tasks.filter (fun t => t.projectId == projectId)
    else if view = "inbox" then tasks.filter (fun t => !(jsTruthy t.projectId))
    else if view = "today" then tasks.filter (fun t => isToday clk t.due)
    else if view = "week" then tasks.filter (fun t => isWithinDays clk t.due 7)
    else if view = "month" then tasks.filter (fun t => isWithinDays clk t.due 30)
    else tasks
  sortCmp (cmpTask clk.dv) filtered

/-- `ProjectManager.deleteProject` removes the first project whose id
matches (`findIndex` + `splice`). -/
def removeFirstProject : List Project → String → List Project
  | [], _ => []
  | p :: ps, pid => if p.id = pid then ps else p :: removeFirstProject ps pid

/-- The update object `{projectId: null}` used by `deleteProject`. -/
def clearProjectUpd : TaskUpdates := { projectId := some none }

/-- `ProjectManager.deleteProject(id)`: if a project with the id exists,
splice it out, then reassign every task referencing it to no project via
`TaskManager.updateTask(task.id, {projectId: null})` (the referencing
tasks are collected once, before the loop runs). -/
def deleteProject (tasks : List Task) (projects : List Project)
    (pid : String) : List Task × List Project :=
  if projects.any (fun p => p.id = pid) then
    let projects2 := removeFirstProject projects pid
    let refs := (tasks.filter (fun t => t.projectId == some pid)).map (fun t => t.id)
    let tasks2 := refs.foldl (fun ts tid => (updateTask ts tid clearProjectUpd).tasks) tasks
    (tasks2, projects2)
  else (tasks, projects)

/-- `ViewManager.renderKanban(projectId)`: the project's tasks
(`filterTasks('inbox', projectId)`) partitioned into the three columns:
`todo` = status `"todo"` and not done, `doing` = status `"doing"` and
not done, `done` = status `"done"` or done. -/
def kanbanColumns (clk : Clock) (tasks : List Task) (pid : String) :
    List Task × List Task × List Task :=
  let ts := filterTasks clk tasks "inbox" (some pid)
  (ts.filter (fun t => t.status == "todo" && !t.done),
   ts.filter (fun t => t.status == "doing" && !t.done),
   ts.filter (fun t => t.status == "done" || t.done))

/-- `UIController.moveTask(taskId, status)`: update the task with the
new status, setting `done` to whether the status is `"done"`. -/
def moveTask (tasks : List Task) (tid newStatus : String) : TaskOpResult :=
  updateTask tasks tid { status := some newStatus, done := some (newStatus == "done") }

/-! ## CSV export (`UIController.convertToCSV`) -/

/-- The regex replace `/"/g → '""'`: double every double quote. -/
def escQuotes : List Char → List Char
  | [] => []
  | c :: cs => if c = '"' then '"' :: '"' :: escQuotes cs else c :: escQuotes cs

/-- One CSV cell: the field wrapped in double quotes with embedded
quotes doubled (the template `"${String(field).replace(/"/g,'""')}"`). -/
def csvField (s : String) : String :=
  ⟨'"' :: (escQuotes s.data ++ ['"'])⟩

/-- The project-name field of a CSV row:
`task.projectId ? projectManager.getProject(task.projectId)?.name : ''`;
a dangling reference renders as `String(undefined) = "undefined"`. -/
def csvProjectName (projects : List Project) (t : Task) : String :=
  match jsOrNull t.projectId with
  | none => ""
  | some pid =>
    match projects.find? (fun p => p.id = pid) with
    | some p => p.name
    | none => "undefined"

/-- One data row of the CSV: the seven fields, each quoted, joined by
commas. -/
def csvRow (projects : List Project) (t : Task) : String :=
  String.intercalate ","
    (List.map csvField
      [t.title, t.desc, t.due.getD "", csvProjectName projects t,
       String.intercalate "; " t.tags, if t.done then "Yes" else "No",
       t.created])

/-- `UIController.convertToCSV(tasks)`: unquoted header line followed by
one quoted row per task, joined by newlines. -/
def convertToCSV (projects : List Project) (tasks : List Task) : String :=
  String.intercalate "\n"
    ("Title,Description,Due Date,Project,Tags,Done,Created" ::
      tasks.map (csvRow projects))

/-! ## Service worker fetch handler (`src/unnamed/part_000`) -/

/-- The parts of a fetch-event request the handler inspects. -/
structure SwRequest where
  method : String
  url : String
deriving DecidableEq, Repr

/-- The parts of a response the handler inspects (`status`, `type`). -/
structure SwResponse where
  status : Nat
  rtype : String
deriving DecidableEq, Repr

/-- The cache bucket: stored responses keyed by request URL.
`cache.put` overwrites any previous entry for the same URL, which the
association-list prepend realises for `cacheMatch`. -/
abbrev SwCache := List (String × SwResponse)

/-- JS `String.prototype.startsWith`: character-prefix test. -/
def strStartsWith (s p : String) : Bool :=
  p.data.isPrefixOf s.data

/-- `caches.match(request)`: the stored response for the URL, if any. -/
def cacheMatch (cache : SwCache) (url : String) : Option SwResponse :=
  (cache.find? (fun e => e.1 = url)).map (fun e => e.2)

/-- `cache.put(request, response)`. -/
def cachePut (cache : SwCache) (url : String) (r : SwResponse) : SwCache :=
  (url, r) :: cache

/-- Outcome of the fetch listener: either the handler returned without
calling `respondWith` (the request passes through untouched), or it
responded — with a response, or with nothing (the swallowed network
failure resolves the request with no response). -/
inductive FetchOutcome where
  | passthrough
  | responded (r : Option SwResponse)
deriving DecidableEq, Repr

/-- The `fetch` event listener: skip non-GET methods and URLs not
starting with `"http"`; else serve a cache hit verbatim; on a miss hit
the network (`net` = the network, `none` = failure), caching the
response before returning it exactly when it has status 200 and is not
of error type. -/
def handleFetch (cache : SwCache) (net : String → Option SwResponse)
    (req : SwRequest) : FetchOutcome × SwCache :=
  if req.method ≠ "GET" then (.passthrough, cache)
  else if !(strStartsWith req.url "http") then (.passthrough, cache)
  else
    match cacheMatch cache req.url with
    | some r => (.responded (some r), cache)
    | none =>
      match net req.url with
      | none => (.responded none, cache)
      | some resp =>
        if resp.status ≠ 200 || resp.rtype == "error" then
          (.responded (some resp), cache)
        else (.responded (some resp), cachePut cache req.url resp)

/-- What the claim calls an http(s) URL: one whose scheme is `http` or
`https` (written from the claim's words, to compare with the
`startsWith "http"` test the code actually performs). -/
def isHttpScheme (url : String) : Bool :=
  strStartsWith url "http://" || strStartsWith url "https://"

/-! ## Spec-side CSV rendering (written from the claim's words) -/

/-- Modelled from the claim's words: the field text with every embedded
double quote doubled. -/
def specDoubleQuotes : List Char → List Char
  | [] => []
  | c :: cs => (if c = '"' then ['"', '"'] else [c]) ++ specDoubleQuotes cs

/-- Modelled from the claim's words: a CSV cell is the field enclosed in
double quotes with embedded double quotes doubled. -/
def specCsvCell (s : String) : String :=
  "\"" ++ (⟨specDoubleQuotes s.data⟩ : String) ++ "\""

/-- Modelled from the claim's words: one row per task with the columns
title, description, due date, project name, semicolon-joined tags,
done yes/no, creation timestamp, each quoted, joined by commas. -/
def specCsvRow (projects : List Project) (t : Task) : String :=
  String.intercalate ","
    [specCsvCell t.title, specCsvCell t.desc, specCsvCell (t.due.getD ""),
     specCsvCell (csvProjectName projects t),
     specCsvCell (String.intercalate "; " t.tags),
     specCsvCell (if t.done then "Yes" else "No"), specCsvCell t.created]

/-! ## Concrete instances used by closed theorems and witnesses -/

/-- A fixed concrete clock instance used for closed evaluations. -/
def clk0 : Clock := ⟨fun _ => 0, fun i => i, 0, 0, fun _ => 0⟩

/-- An incomplete task with no due date. -/
def taskUndatedOpen : Task :=
  ⟨"a", "A", "", none, none, [], [], false, false, "c", "todo"⟩

/-- A completed task with a due date. -/
def taskDatedDone : Task :=
  ⟨"b", "B", "", none, some "2024-06-01", [], [], true, false, "c", "todo"⟩

/-- A task due on a day with index 0 under `clk0`. -/
def taskDueNow : Task :=
  ⟨"w", "W", "", none, some "2024-06-02", [], [], false, false, "c", "todo"⟩

/-- A task in workflow state `"doing"`, not completed. -/
def taskDoingOpen : Task :=
  ⟨"d", "D", "", none, none, [], [], false, false, "c", "doing"⟩

/-- A task referencing project `"p1"`. -/
def taskRefP1 : Task :=
  ⟨"t1", "T", "", some "p1", none, [], [], false, false, "c", "todo"⟩

/-- A project with id `"p1"`. -/
def projP1 : Project := ⟨"p1", "Work", "#fff", "kanban"⟩

/-- Task data with an empty title. -/
def emptyTitleData : TaskData := { title := "" }

/-- Task data with a non-empty title. -/
def milkTitleData : TaskData := { title := "Buy milk" }

/-- Task data for the kanban scenario: status `"todo"`, project `"p1"`. -/
def planTaskData : TaskData := { title := "Plan", projectId := some "p1", status := some "todo" }

/-- A network that always answers with a cacheable 200 response. -/
def netOk : String → Option SwResponse := fun _ => some ⟨200, "basic"⟩

/-- A concrete GET request to an https URL. -/
def reqGetHttps : SwRequest := ⟨"GET", "https://x"⟩

/-! ## Persistence: JSON documents and `StorageManager`

`StorageManager.getData`/`saveData` persist the Document through
`JSON.parse`/`JSON.stringify` on the localStorage path, or store the
object directly on the IndexedDB path.  The platform JSON codec is
modelled over a JSON value type without numbers: the persisted Document
(tasks, projects, settings — see `getDefaultData` and `createTask`)
contains only strings, booleans, nulls, arrays and objects.  Object
fields are an ordered list (JS objects preserve insertion order for the
non-integer-like keys this app uses); strings range over Unicode scalar
values (the app never produces lone surrogates). -/

mutual
inductive JValue where
  | jnull : JValue
  | jbool : Bool → JValue
  | jstr : String → JValue
  | jarr : JArr → JValue
  | jobj : JObj → JValue
inductive JArr where
  | anil : JArr
  | acons : JValue → JArr → JArr
inductive JObj where
  | onil : JObj
  | ocons : String → JValue → JObj → JObj
end

/-- Lower-case hex digit, as emitted by `JSON.stringify` in `\u00XX`
escapes. -/
def hexDigit (n : Nat) : Char :=
  match n with
  | 0 => '0' | 1 => '1' | 2 => '2' | 3 => '3' | 4 => '4'
  | 5 => '5' | 6 => '6' | 7 => '7' | 8 => '8' | 9 => '9'
  | 10 => 'a' | 11 => 'b' | 12 => 'c' | 13 => 'd' | 14 => 'e'
  | _ => 'f'

/-- Value of a hex digit accepted by `JSON.parse` in `\uXXXX`. -/
def hexVal (c : Char) : Option Nat :=
  if '0' ≤ c ∧ c ≤ '9' then some (c.toNat - 48)
  else if 'a' ≤ c ∧ c ≤ 'f' then some (c.toNat - 87)
  else if 'A' ≤ c ∧ c ≤ 'F' then some (c.toNat - 55)
  else none

/-- String-character escaping of `JSON.stringify`: quote and backslash,
the named control escapes, `\u00XX` for other control characters, and
every other character literally. -/
def escChar (c : Char) : List Char :=
  if c = '"' then ['\\', '"']
  else if c = '\\' then ['\\', '\\']
  else if c = '\x08' then ['\\', 'b']
  else if c = '\t' then ['\\', 't']
  else if c = '\n' then ['\\', 'n']
  else if c = '\x0c' then ['\\', 'f']
  else if c = '\r' then ['\\', 'r']
  else if c.toNat < 32 then
    ['\\', 'u', '0', '0', hexDigit (c.toNat / 16), hexDigit (c.toNat % 16)]
  else [c]

def escStr : List Char → List Char
  | [] => []
  | c :: cs => escChar c ++ escStr cs

mutual
/-- `JSON.stringify` (compact form, as used by `saveData`). -/
def strJ : JValue → List Char
  | .jnull => ['n', 'u', 'l', 'l']
  | .jbool true => ['t', 'r', 'u', 'e']
  | .jbool false => ['f', 'a', 'l', 's', 'e']
  | .jstr s => '"' :: (escStr s.data ++ ['"'])
  | .jarr a => '[' :: (strA a ++ [']'])
  | .jobj o => '\x7b' :: (strO o ++ ['\x7d'])
def strA : JArr → List Char
  | .anil => []
  | .acons v .anil => strJ v
  | .acons v (.acons w tl) => strJ v ++ ',' :: strA (.acons w tl)
def strO : JObj → List Char
  | .onil => []
  | .ocons k v .onil => '"' :: (escStr k.data ++ ('"' :: ':' :: strJ v))
  | .ocons k v (.ocons k2 w tl) =>
    ('"' :: (escStr k.data ++ ('"' :: ':' :: strJ v))) ++
      ',' :: strO (.ocons k2 w tl)
end

/-- JSON insignificant whitespace. -/
def skipWs : List Char → List Char
  | [] => []
  | c :: cs =>
    if c = ' ' ∨ c = '\t' ∨ c = '\n' ∨ c = '\r' then skipWs cs else c :: cs

/-- Decode of a single-character string escape accepted by `JSON.parse`. -/
def unescChar (c : Char) : Option Char :=
  if c = '"' then some '"'
  else if c = '\\' then some '\\'
  else if c = '/' then some '/'
  else if c = 'b' then some '\x08'
  else if c = 'f' then some '\x0c'
  else if c = 'n' then some '\n'
  else if c = 'r' then some '\r'
  else if c = 't' then some '\t'
  else none

/-- `JSON.parse` string body (after the opening quote): literal
characters until the closing quote, with backslash escapes. -/
def parseStringBody : List Char → Option (List Char × List Char)
  | [] => none
  | c :: rest =>
    if c = '"' then some ([], rest)
    else if c = '\\' then
      match rest with
      | [] => none
      | e :: r2 =>
        if e = 'u' then
          match r2 with
          | h1 :: h2 :: h3 :: h4 :: r3 =>
            match hexVal h1, hexVal h2, hexVal h3, hexVal h4 with
            | some a, some b, some c3, some d =>
              (parseStringBody r3).map
                (fun p => (Char.ofNat (4096 * a + 256 * b + 16 * c3 + d) :: p.1, p.2))
            | _, _, _, _ => none
          | _ => none
        else
          match unescChar e with
          | some u => (parseStringBody r2).map (fun p => (u :: p.1, p.2))
          | none => none
    else (parseStringBody rest).map (fun p => (c :: p.1, p.2))

mutual
/-- `JSON.parse` value grammar (restricted to the numberless fragment
the app persists), fuelled by recursion depth. -/
def parseVal : Nat → List Char → Option (JValue × List Char)
  | 0, _ => none
  | fuel + 1, cs =>
    match skipWs cs with
    | [] => none
    | c :: r =>
      if c = 'n' then
        match r with
        | c1 :: c2 :: c3 :: r2 =>
          if c1 = 'u' ∧ c2 = 'l' ∧ c3 = 'l' then some (.jnull, r2) else none
        | _ => none
      else if c = 't' then
        match r with
        | c1 :: c2 :: c3 :: r2 =>
          if c1 = 'r' ∧ c2 = 'u' ∧ c3 = 'e' then some (.jbool true, r2)
          else none
        | _ => none
      else if c = 'f' then
        match r with
        | c1 :: c2 :: c3 :: c4 :: r2 =>
          if c1 = 'a' ∧ c2 = 'l' ∧ c3 = 's' ∧ c4 = 'e' then
            some (.jbool false, r2)
          else none
        | _ => none
      else if c = '"' then
        (parseStringBody r).map (fun p => (.jstr ⟨p.1⟩, p.2))
      else if c = '[' then
        match skipWs r with
        | [] => none
        | c2 :: r2 =>
          if c2 = ']' then some (.jarr .anil, r2)
          else (parseItems fuel (c2 :: r2)).map (fun p => (.jarr p.1, p.2))
      else if c = '\x7b' then
        match skipWs r with
        | [] => none
        | c2 :: r2 =>
          if c2 = '\x7d' then some (.jobj .onil, r2)
          else (parseFields fuel (c2 :: r2)).map (fun p => (.jobj p.1, p.2))
      else none
def parseItems : Nat → List Char → Option (JArr × List Char)
  | 0, _ => none
  | fuel + 1, cs =>
    match parseVal fuel cs with
    | none => none
    | some (v, r1) =>
      match skipWs r1 with
      | [] => none
      | c :: r2 =>
        if c = ',' then
          (parseItems fuel r2).map (fun p => (.acons v p.1, p.2))
        else if c = ']' then some (.acons v .anil, r2)
        else none
def parseFields : Nat → List Char → Option (JObj × List Char)
  | 0, _ => none
  | fuel + 1, cs =>
    match skipWs cs with
    | [] => none
    | c :: r0 =>
      if c = '"' then
        match parseStringBody r0 with
        | none => none
        | some (k, r1) =>
          match skipWs r1 with
          | [] => none
          | c1 :: r2 =>
            if c1 = ':' then
              match parseVal fuel r2 with
              | none => none
              | some (v, r3) =>
                match skipWs r3 with
                | [] => none
                | c2 :: r4 =>
                  if c2 = ',' then
                    (parseFields fuel r4).map
                      (fun p => (.ocons ⟨k⟩ v p.1, p.2))
                  else if c2 = '\x7d' then some (.ocons ⟨k⟩ v .onil, r4)
                  else none
            else none
      else none
end

mutual
/-- Recursion depth needed by the parser on stringified output. -/
def needV : JValue → Nat
  | .jnull => 1
  | .jbool _ => 1
  | .jstr _ => 1
  | .jarr a => 1 + needA a
  | .jobj o => 1 + needO o
def needA : JArr → Nat
  | .anil => 0
  | .acons v tl => 1 + needV v + needA tl
def needO : JObj → Nat
  | .onil => 0
  | .ocons _ v tl => 1 + needV v + needO tl
end

/-- `JSON.stringify` of a document. -/
def jsonStringify (v : JValue) : String := ⟨strJ v⟩

/-- `JSON.parse` of a stored string: the whole input (up to trailing
whitespace) must be consumed. -/
def jsonParse (s : String) : Option JValue :=
  match parseVal (s.data.length + 1) s.data with
  | some (v, rest) => if skipWs rest = [] then some v else none
  | none => none

/-- `StorageManager.getDefaultData()`. -/
def getDefaultData : JValue :=
  .jobj (.ocons "tasks" (.jarr .anil)
    (.ocons "projects" (.jarr .anil)
      (.ocons "settings"
        (.jobj (.ocons "darkMode" (.jstr "auto")
          (.ocons "notifications" (.jbool true) .onil))) .onil)))

/-- The storage backends: the localStorage slot holds bytes (a string),
the IndexedDB slot holds a structured-clone of the document itself. -/
structure StorageState where
  useIndexedDB : Bool
  ls : Option String
  idb : Option JValue

/-- `StorageManager.getData()`: from IndexedDB (`result || default`)
when the fallback is active, else `JSON.parse` of the localStorage
string (absent or falsy string, or a parse failure, gives the default
document). -/
def getData (st : StorageState) : JValue :=
  if st.useIndexedDB then
    match st.idb with
    | some v => v
    | none => getDefaultData
  else
    match st.ls with
    | none => getDefaultData
    | some s =>
      if s = "" then getDefaultData
      else
        match jsonParse s with
        | some v => v
        | none => getDefaultData

/-- `StorageManager.saveData(data)`: store into IndexedDB, else
`JSON.stringify` into localStorage. -/
def saveData (st : StorageState) (v : JValue) : StorageState :=
  if st.useIndexedDB then { st with idb := some v }
  else { st with ls := some (jsonStringify v) }

/-! ## First-match update lemmas -/

theorem applyUpdates_id (t : Task) (u : TaskUpdates) :
    (applyUpdates t u).id = t.id := rfl

theorem applyUpdates_clear (t : Task) :
    applyUpdates t clearProjectUpd = { t with projectId := none } := rfl

theorem getD_getD (o : Option β) (x : β) : o.getD (o.getD x) = o.getD x := by
  cases o <;> rfl

theorem applyUpdates_idem (t : Task) (u : TaskUpdates) :
    applyUpdates (applyUpdates t u) u = applyUpdates t u := by
  unfold applyUpdates
  congr 1 <;> first | rfl | apply getD_getD

theorem updateFirst_absent (tasks : List Task) (tid : String) (u : TaskUpdates)
    (h : ∀ t ∈ tasks, t.id ≠ tid) : updateFirst tasks tid u = tasks := by
  induction tasks with
  | nil => rfl
  | cons t ts ih =>
    have ht : t.id ≠ tid := h t (by simp)
    simp only [updateFirst, if_neg ht]
    rw [ih (fun s hs => h s (by simp [hs]))]

theorem updateTask_tasks_eq (tasks : List Task) (tid : String) (u : TaskUpdates) :
    (updateTask tasks tid u).tasks = updateFirst tasks tid u := by
  unfold updateTask
  cases h : getTask tasks tid with
  | none =>
    have habs : ∀ t ∈ tasks, t.id ≠ tid := by
      intro t ht
      have := List.find?_eq_none.mp h t ht
      simpa using this
    simp [updateFirst_absent tasks tid u habs]
  | some t => rfl

/-- With pairwise distinct ids, updating the first id match is a
pointwise map over the collection. -/
theorem updateFirst_eq_map (tasks : List Task) (tid : String) (u : TaskUpdates)
    (h : (tasks.map Task.id).Nodup) :
    updateFirst tasks tid u =
      tasks.map (fun t => if t.id = tid then applyUpdates t u else t) := by
  induction tasks with
  | nil => rfl
  | cons t ts ih =>
    rw [List.map_cons, List.nodup_cons] at h
    obtain ⟨hni, hnd⟩ := h
    by_cases ht : t.id = tid
    · simp only [updateFirst, if_pos ht, List.map_cons, if_pos ht]
      congr 1
      have hne : ∀ s ∈ ts, ¬(s.id = tid) := by
        intro s hs heq
        have hm : s.id ∈ List.map Task.id ts := List.mem_map_of_mem Task.id hs
        rw [heq, ← ht] at hm
        exact hni hm
      rw [List.map_congr_left (fun s hs => if_neg (hne s hs))]
      simp
    · simp only [updateFirst, if_neg ht, List.map_cons, ih hnd]

/-- With pairwise distinct ids, toggling a task is a pointwise map. -/
theorem toggleTask_eq_map (tasks : List Task) (tid : String)
    (h : (tasks.map Task.id).Nodup) :
    toggleTask tasks tid =
      tasks.map (fun t => if t.id = tid then { t with done := !t.done } else t) := by
  induction tasks with
  | nil => rfl
  | cons t ts ih =>
    rw [List.map_cons, List.nodup_cons] at h
    obtain ⟨hni, hnd⟩ := h
    by_cases ht : t.id = tid
    · simp only [toggleTask, if_pos ht, List.map_cons, if_pos ht]
      congr 1
      have hne : ∀ s ∈ ts, ¬(s.id = tid) := by
        intro s hs heq
        have hm : s.id ∈ List.map Task.id ts := List.mem_map_of_mem Task.id hs
        rw [heq, ← ht] at hm
        exact hni hm
      rw [List.map_congr_left (fun s hs => if_neg (hne s hs))]
      simp
    · simp only [toggleTask, if_neg ht, List.map_cons, ih hnd]

/-! ## Lemmas about the insertion sort -/

theorem mem_insertCmp {cmp : α → α → Int} {a x : α} {l : List α} :
    x ∈ insertCmp cmp a l ↔ x = a ∨ x ∈ l := by
  induction l with
  | nil => simp [insertCmp]
  | cons b l ih =>
    simp only [insertCmp]
    split
    · simp [List.mem_cons]
    · simp only [List.mem_cons, ih]
      tauto

theorem mem_foldl_insertCmp {cmp : α → α → Int} (l : List α) (acc : List α)
    (x : α) :
    x ∈ l.foldl (fun acc a => insertCmp cmp a acc) acc ↔ x ∈ acc ∨ x ∈ l := by
  induction l generalizing acc with
  | nil => simp
  | cons a l ih =>
    simp only [List.foldl_cons, ih, mem_insertCmp, List.mem_cons]
    tauto

/-- Membership is invariant under the sort. -/
theorem mem_sortCmp {cmp : α → α → Int} {l : List α} {x : α} :
    x ∈ sortCmp cmp l ↔ x ∈ l := by
  unfold sortCmp
  rw [mem_foldl_insertCmp]
  simp

theorem pairwise_insertCmp {cmp : α → α → Int}
    (htr : ∀ x y z, cmp x y ≤ 0 → cmp y z ≤ 0 → cmp x z ≤ 0)
    (han : ∀ x y, 0 ≤ cmp x y → cmp y x ≤ 0)
    (a : α) {l : List α} (h : l.Pairwise (fun x y => cmp x y ≤ 0)) :
    (insertCmp cmp a l).Pairwise (fun x y => cmp x y ≤ 0) := by
  induction l with
  | nil => simp [insertCmp]
  | cons b l ih =>
    rw [List.pairwise_cons] at h
    obtain ⟨hb, hl⟩ := h
    simp only [insertCmp]
    split
    · rename_i hab
      rw [List.pairwise_cons]
      refine ⟨?_, List.pairwise_cons.mpr ⟨hb, hl⟩⟩
      intro x hx
      rcases List.mem_cons.mp hx with rfl | hx
      · exact le_of_lt hab
      · exact htr a b x (le_of_lt hab) (hb x hx)
    · rename_i hab
      rw [List.pairwise_cons]
      refine ⟨?_, ih hl⟩
      intro x hx
      rcases mem_insertCmp.mp hx with rfl | hx
      · exact han x b (by omega)
      · exact hb x hx

/-- The sorted output is pairwise nondescending for any comparator that
is transitive and sign-antisymmetric. -/
theorem pairwise_sortCmp {cmp : α → α → Int}
    (htr : ∀ x y z, cmp x y ≤ 0 → cmp y z ≤ 0 → cmp x z ≤ 0)
    (han : ∀ x y, 0 ≤ cmp x y → cmp y x ≤ 0)
    (l : List α) :
    (sortCmp cmp l).Pairwise (fun x y => cmp x y ≤ 0) := by
  unfold sortCmp
  have key : ∀ (l acc : List α), acc.Pairwise (fun x y => cmp x y ≤ 0) →
      (l.foldl (fun acc a => insertCmp cmp a acc) acc).Pairwise
        (fun x y => cmp x y ≤ 0) := by
    intro l
    induction l with
    | nil => intro acc h; simpa using h
    | cons a l ih =>
      intro acc h
      exact ih _ (pairwise_insertCmp htr han a h)
  exact key l [] (by simp)

/-! ## Lemmas about the task comparator -/

theorem cmpTask_trans (dv : String → Int) (a b c : Task)
    (h1 : cmpTask dv a b ≤ 0) (h2 : cmpTask dv b c ≤ 0) :
    cmpTask dv a c ≤ 0 := by
  unfold cmpTask at *
  cases hab : a.done <;> cases hbc : b.done <;> cases hcc : c.done <;> simp_all
  all_goals cases hda : jsDue a <;> cases hdb : jsDue b <;> cases hdc : jsDue c <;>
    simp_all
  all_goals omega

theorem cmpTask_antisym (dv : String → Int) (a b : Task)
    (h : 0 ≤ cmpTask dv a b) : cmpTask dv b a ≤ 0 := by
  unfold cmpTask at *
  cases hab : a.done <;> cases hbc : b.done <;> simp_all
  all_goals cases hda : jsDue a <;> cases hdb : jsDue b <;> simp_all

/-- A comparator-sorted pair with equal `done` flags and an undated left
element has an undated right element. -/
theorem cmpTask_le_undated (dv : String → Int) (a b : Task)
    (h : cmpTask dv a b ≤ 0) (hd : a.done = b.done) (ha : jsDue a = none) :
    jsDue b = none := by
  cases hb : jsDue b with
  | none => rfl
  | some s =>
    unfold cmpTask at h
    rw [hd, ha, hb] at h
    simp at h

/-! ## Filter membership lemmas -/

/-- `isToday` holds exactly for a non-empty due string whose parsed
local calendar day is the current one. -/
theorem isToday_iff (clk : Clock) (d : Option String) :
    isToday clk d = true ↔
      ∃ s, d = some s ∧ s ≠ "" ∧ clk.dayOf (clk.dv s) = clk.dayOf clk.now := by
  cases d with
  | none => simp [isToday, jsOrNull]
  | some s =>
    by_cases hs : s = ""
    · subst hs; simp [isToday, jsOrNull]
    · simp [isToday, jsOrNull, hs]

/-- Membership in `filterTasks` with a truthy project id. -/
theorem mem_filterTasks_project (clk : Clock) (tasks : List Task)
    (view : String) {pid : String} (hpid : pid ≠ "") (t : Task) :
    t ∈ filterTasks clk tasks view (some pid) ↔
      t ∈ tasks ∧ t.projectId = some pid := by
  unfold filterTasks
  have hj : jsTruthy (some pid) = true := by simp [jsTruthy, hpid]
  rw [hj]
  simp only [if_true, mem_sortCmp, List.mem_filter, beq_iff_eq]

/-! ## C2: position of undated tasks in `filterTasks` output -/

/-- C2 counterexample: the claim that every task without a due date is
ordered after every dated task in `filterTasks` output is false as
stated — the comparator orders by completion first, so the undated
incomplete task `taskUndatedOpen` precedes the dated completed task
`taskDatedDone` in the `"inbox"` view. -/
theorem filterTasks_undated_first_counterexample :
    ¬ (filterTasks clk0 [taskUndatedOpen, taskDatedDone] "inbox" none).Pairwise
        (fun a b => jsDue a = none → jsDue b = none) := by decide

/-- C2 (amended): in `filterTasks` output, among tasks with the same
completion state, every task with no (truthy) due date is ordered after
every task with a due date, for every view and optional project id. -/
theorem filterTasks_undated_after_dated_amended (clk : Clock)
    (tasks : List Task) (view : String) (pid : Option String) :
    (filterTasks clk tasks view pid).Pairwise
      (fun a b => a.done = b.done → jsDue a = none → jsDue b = none) := by
  unfold filterTasks
  exact List.Pairwise.imp
    (fun h hd ha => cmpTask_le_undated clk.dv _ _ h hd ha)
    (pairwise_sortCmp (cmpTask_trans clk.dv) (cmpTask_antisym clk.dv) _)

/-! ## C4: the `"today"` view -/

/-- C4: a task in the collection appears in `filterTasks("today")`
exactly when it has a (non-empty) due date string whose local calendar
day equals the current local calendar day. -/
theorem filterTasks_today_iff (clk : Clock) (tasks : List Task) (t : Task)
    (ht : t ∈ tasks) :
    t ∈ filterTasks clk tasks "today" none ↔
      ∃ s, t.due = some s ∧ s ≠ "" ∧ clk.dayOf (clk.dv s) = clk.dayOf clk.now := by
  unfold filterTasks
  have hj : jsTruthy (none : Option String) = false := rfl
  rw [hj]
  simp only [Bool.false_eq_true, if_false, reduceIte, mem_sortCmp,
    List.mem_filter]
  rw [← isToday_iff clk t.due]
  simp [ht]

/-- Witness for C4 at a concrete input. -/
theorem filterTasks_today_iff_witness :
    taskDueNow ∈ [taskDueNow] ∧
      (taskDueNow ∈ filterTasks clk0 [taskDueNow] "today" none ↔
        ∃ s, taskDueNow.due = some s ∧ s ≠ "" ∧
          clk0.dayOf (clk0.dv s) = clk0.dayOf clk0.now) :=
  ⟨by decide, filterTasks_today_iff clk0 [taskDueNow] taskDueNow (by decide)⟩

/-! ## C3: kanban column membership -/

/-- Membership in each kanban column, characterised over the underlying
collection. -/
theorem kanbanColumns_mem (clk : Clock) (tasks : List Task) {pid : String}
    (hpid : pid ≠ "") (t : Task) :
    (t ∈ (kanbanColumns clk tasks pid).1 ↔
      (t ∈ tasks ∧ t.projectId = some pid) ∧ t.status = "todo" ∧ t.done = false) ∧
    (t ∈ (kanbanColumns clk tasks pid).2.1 ↔
      (t ∈ tasks ∧ t.projectId = some pid) ∧ t.status = "doing" ∧ t.done = false) ∧
    (t ∈ (kanbanColumns clk tasks pid).2.2 ↔
      (t ∈ tasks ∧ t.projectId = some pid) ∧ (t.status = "done" ∨ t.done = true)) := by
  unfold kanbanColumns
  simp only [List.mem_filter, mem_filterTasks_project clk tasks "inbox" hpid,
    Bool.and_eq_true, Bool.or_eq_true, beq_iff_eq, Bool.not_eq_true']
  tauto

/-- C3: for a project's tasks (workflow status ranging over `todo`,
`doing`, `done`), the kanban rendering places a task in the `todo`
(resp. `doing`) column iff its status is `"todo"` (resp. `"doing"`) and
it is not done, and in the `done` column iff its status is `"done"` or
its `done` flag is set; a task created with status `"todo"` into the
project lands in the `todo` column, and after `moveTask(id, "done")`
the task (same id) is in the `done` column with `done = true`. -/
theorem renderKanban_partition (clk : Clock) (tasks : List Task)
    {pid : String} (hpid : pid ≠ "") :
    (∀ t ∈ tasks, t.projectId = some pid →
      ((t ∈ (kanbanColumns clk tasks pid).1 ↔
          t.status = "todo" ∧ t.done = false) ∧
       (t ∈ (kanbanColumns clk tasks pid).2.1 ↔
          t.status = "doing" ∧ t.done = false) ∧
       (t ∈ (kanbanColumns clk tasks pid).2.2 ↔
          t.status = "done" ∨ t.done = true))) ∧
    (∀ td (id created : String), jsOrStr td.status "todo" = "todo" →
      jsOrNull td.projectId = some pid →
      (createTask tasks td id created).1 ∈
        (kanbanColumns clk (createTask tasks td id created).2 pid).1) ∧
    ((tasks.map Task.id).Nodup → ∀ t ∈ tasks, t.projectId = some pid →
      ∃ t2 ∈ (kanbanColumns clk (moveTask tasks t.id "done").tasks pid).2.2,
        t2.id = t.id ∧ t2.done = true) := by
  refine ⟨?_, ?_, ?_⟩
  · intro t ht hp
    obtain ⟨h1, h2, h3⟩ := kanbanColumns_mem clk tasks hpid t
    rw [h1, h2, h3]
    simp [ht, hp]
  · intro td id created hstat hproj
    rw [(kanbanColumns_mem clk (createTask tasks td id created).2 hpid
      (createTask tasks td id created).1).1]
    refine ⟨⟨?_, hproj⟩, hstat, rfl⟩
    exact List.mem_append_right _ (by simp only [List.mem_singleton]; rfl)
  · intro hnd t ht hp
    refine ⟨applyUpdates t
      { status := some "done", done := some (("done" : String) == "done") },
      ?_, rfl, rfl⟩
    rw [(kanbanColumns_mem clk (moveTask tasks t.id "done").tasks hpid _).2.2]
    refine ⟨⟨?_, hp⟩, Or.inl rfl⟩
    show _ ∈ (updateTask tasks t.id _).tasks
    rw [updateTask_tasks_eq, updateFirst_eq_map _ _ _ hnd]
    have heq : applyUpdates t
        { status := some "done", done := some (("done" : String) == "done") } =
        (fun s => if s.id = t.id
          then applyUpdates s
            { status := some "done", done := some (("done" : String) == "done") }
          else s) t := by
      simp
    rw [heq]
    exact List.mem_map_of_mem _ ht

/-- Witness for C3: the concrete scenario task sits in the `todo`
column of its kanban board. -/
theorem renderKanban_partition_witness :
    taskRefP1 ∈ (kanbanColumns clk0 [taskRefP1] "p1").1 := by
  have h := renderKanban_partition clk0 [taskRefP1]
    (show ("p1" : String) ≠ "" by decide)
  exact ((h.1 taskRefP1 (by decide) (by decide)).1).mpr ⟨rfl, rfl⟩

/-! ## C1: `deleteProject` clears all references -/

theorem removeFirstProject_no_id (projects : List Project) (pid : String)
    (h : (projects.map Project.id).Nodup) :
    ∀ q ∈ removeFirstProject projects pid, q.id ≠ pid := by
  induction projects with
  | nil => simp [removeFirstProject]
  | cons p ps ih =>
    rw [List.map_cons, List.nodup_cons] at h
    obtain ⟨hni, hnd⟩ := h
    by_cases hp : p.id = pid
    · simp only [removeFirstProject, if_pos hp]
      intro q hq hqe
      have hm : q.id ∈ ps.map Project.id := List.mem_map_of_mem _ hq
      rw [hqe, ← hp] at hm
      exact hni hm
    · simp only [removeFirstProject, if_neg hp]
      intro q hq
      rcases List.mem_cons.mp hq with rfl | hq
      · exact hp
      · exact ih hnd q hq

/-- The reassignment loop of `deleteProject` is a pointwise map over
the task collection when ids are pairwise distinct. -/
theorem foldl_clear_eq_map (refs : List String) (tasks : List Task)
    (h : (tasks.map Task.id).Nodup) :
    refs.foldl (fun ts tid => (updateTask ts tid clearProjectUpd).tasks) tasks =
      tasks.map
        (fun t => if t.id ∈ refs then { t with projectId := none } else t) := by
  induction refs generalizing tasks with
  | nil => simp
  | cons r rs ih =>
    rw [List.foldl_cons, updateTask_tasks_eq, updateFirst_eq_map _ _ _ h]
    have hids :
        ((tasks.map (fun t => if t.id = r then applyUpdates t clearProjectUpd
            else t)).map Task.id) = tasks.map Task.id := by
      rw [List.map_map]
      apply List.map_congr_left
      intro t ht
      by_cases h1 : t.id = r <;> simp [Function.comp, h1, applyUpdates_id]
    rw [ih _ (by rw [hids]; exact h), List.map_map]
    apply List.map_congr_left
    intro t ht
    simp only [Function.comp]
    by_cases h1 : t.id = r <;> by_cases h2 : t.id ∈ rs <;>
      simp [h1, h2, applyUpdates_clear, applyUpdates_id, List.mem_cons]

/-- C1: deleting a project that is present removes every project with
that id, leaves no task referencing it, and redirects every previously
referencing task (same id) to no project. -/
theorem deleteProject_clears_references (tasks : List Task)
    (projects : List Project) (P : Project) (hP : P ∈ projects)
    (hproj : (projects.map Project.id).Nodup)
    (htask : (tasks.map Task.id).Nodup) :
    (∀ q ∈ (deleteProject tasks projects P.id).2, q.id ≠ P.id) ∧
    (∀ t ∈ (deleteProject tasks projects P.id).1,
      t.projectId ≠ some P.id) ∧
    (∀ t ∈ tasks, t.projectId = some P.id →
      ∃ t2 ∈ (deleteProject tasks projects P.id).1,
        t2.id = t.id ∧ t2.projectId = none) := by
  have hguard : projects.any (fun p => p.id = P.id) = true := by
    rw [List.any_eq_true]
    exact ⟨P, hP, by simp⟩
  unfold deleteProject
  rw [hguard]
  simp only [if_true]
  rw [foldl_clear_eq_map _ _ htask]
  refine ⟨removeFirstProject_no_id projects P.id hproj, ?_, ?_⟩
  · intro t ht
    obtain ⟨s, hs, rfl⟩ := List.mem_map.mp ht
    by_cases hin :
        s.id ∈ (tasks.filter (fun t => t.projectId == some P.id)).map
          (fun t => t.id)
    · simp [hin]
    · simp only [if_neg hin]
      intro heq
      apply hin
      exact List.mem_map_of_mem _ (List.mem_filter.mpr ⟨hs, by simp [heq]⟩)
  · intro t ht hp
    have hin :
        t.id ∈ (tasks.filter (fun t => t.projectId == some P.id)).map
          (fun t => t.id) :=
      List.mem_map_of_mem _ (List.mem_filter.mpr ⟨ht, by simp [hp]⟩)
    refine ⟨{ t with projectId := none }, ?_, rfl, rfl⟩
    apply List.mem_map.mpr
    exact ⟨t, ht, by simp [hin]⟩

/-- Witness for C1 at a concrete input. -/
theorem deleteProject_clears_references_witness :
    projP1 ∈ [projP1] ∧ ([projP1].map Project.id).Nodup ∧
      ([taskRefP1].map Task.id).Nodup ∧
      ((∀ q ∈ (deleteProject [taskRefP1] [projP1] projP1.id).2,
          q.id ≠ projP1.id) ∧
       (∀ t ∈ (deleteProject [taskRefP1] [projP1] projP1.id).1,
          t.projectId ≠ some projP1.id) ∧
       (∀ t ∈ [taskRefP1], t.projectId = some projP1.id →
          ∃ t2 ∈ (deleteProject [taskRefP1] [projP1] projP1.id).1,
            t2.id = t.id ∧ t2.projectId = none)) :=
  ⟨by decide, by decide, by decide,
    deleteProject_clears_references [taskRefP1] [projP1] projP1
      (by decide) (by decide) (by decide)⟩

/-! ## C9: `toggleTask` negates only the `done` flag -/

/-- C9: with pairwise distinct task ids, `toggleTask` maps the task with
the given id to the same task with `done` negated and leaves every other
task (and every other field, including `status`) unchanged; in
particular the negated copy of a matching task is in the output and
keeps its workflow status, so `done` and `status` can diverge: toggling
the incomplete `"doing"` task `taskDoingOpen` yields `done = true` with
`status` still `"doing"`. -/
theorem toggleTask_frame (tasks : List Task) (tid : String)
    (h : (tasks.map Task.id).Nodup) :
    toggleTask tasks tid =
      tasks.map (fun t => if t.id = tid then { t with done := !t.done } else t) ∧
    (∀ t ∈ tasks, t.id = tid →
      ({ t with done := !t.done } : Task) ∈ toggleTask tasks tid ∧
      ({ t with done := !t.done } : Task).status = t.status) ∧
    toggleTask [taskDoingOpen] "d" =
      [{ taskDoingOpen with done := true, status := "doing" }] := by
  refine ⟨toggleTask_eq_map tasks tid h, ?_, by decide⟩
  intro t ht htid
  refine ⟨?_, rfl⟩
  rw [toggleTask_eq_map tasks tid h]
  have : ({ t with done := !t.done } : Task) =
      (fun t => if t.id = tid then { t with done := !t.done } else t) t := by
    simp [htid]
  rw [this]
  exact List.mem_map_of_mem _ ht

/-- Witness for C9 at a concrete input. -/
theorem toggleTask_frame_witness :
    ([taskDoingOpen].map Task.id).Nodup ∧
      (toggleTask [taskDoingOpen] "d" =
        [taskDoingOpen].map
          (fun t => if t.id = "d" then { t with done := !t.done } else t) ∧
      (∀ t ∈ [taskDoingOpen], t.id = "d" →
        ({ t with done := !t.done } : Task) ∈ toggleTask [taskDoingOpen] "d" ∧
        ({ t with done := !t.done } : Task).status = t.status) ∧
      toggleTask [taskDoingOpen] "d" =
        [{ taskDoingOpen with done := true, status := "doing" }]) :=
  ⟨by decide, toggleTask_frame [taskDoingOpen] "d" (by decide)⟩

/-! ## C10: operations on an absent task id are no-ops -/

theorem deleteTask_absent (tasks : List Task) (tid : String)
    (h : ∀ t ∈ tasks, t.id ≠ tid) : deleteTask tasks tid = (tasks, [], false) := by
  induction tasks with
  | nil => rfl
  | cons t ts ih =>
    have ht : t.id ≠ tid := h t (by simp)
    simp only [deleteTask, if_neg ht]
    rw [ih (fun s hs => h s (by simp [hs]))]

/-- C10: when no task has the given id, `updateTask` returns `null` and
`deleteTask` returns silently, and neither changes the collection,
writes to storage, or emits an event. -/
theorem missing_id_noop (tasks : List Task) (tid : String) (u : TaskUpdates)
    (h : ∀ t ∈ tasks, t.id ≠ tid) :
    updateTask tasks tid u = ⟨none, tasks, [], false⟩ ∧
    deleteTask tasks tid = (tasks, [], false) := by
  refine ⟨?_, deleteTask_absent tasks tid h⟩
  unfold updateTask
  have hg : getTask tasks tid = none := by
    apply List.find?_eq_none.mpr
    intro t ht
    simpa using h t ht
  rw [hg]

/-- Witness for C10 at a concrete input. -/
theorem missing_id_noop_witness :
    (∀ t ∈ [taskUndatedOpen], t.id ≠ "zz") ∧
      (updateTask [taskUndatedOpen] "zz" clearProjectUpd =
        ⟨none, [taskUndatedOpen], [], false⟩ ∧
      deleteTask [taskUndatedOpen] "zz" = ([taskUndatedOpen], [], false)) :=
  ⟨by decide, missing_id_noop [taskUndatedOpen] "zz" clearProjectUpd (by decide)⟩

/-! ## C7: `createTask` and the non-empty-title invariant -/

/-- C7 counterexample: `createTask` performs no validation of the title;
called with an empty title it adds a task whose title is empty, so the
claim that every call to `createTask` adds a task with a non-empty
title is false. -/
theorem createTask_empty_title_counterexample :
    (createTask [] emptyTitleData "t1" "now").1.title = "" ∧
      (createTask [] emptyTitleData "t1" "now").1 ∈
        (createTask [] emptyTitleData "t1" "now").2 := by
  decide

/-- C7 (amended): `createTask` stores the supplied title verbatim, so
the collection-wide invariant that every stored task has a non-empty
title is preserved exactly when the caller supplies a non-empty title
(as the quick-add UI path does by rejecting blank input). -/
theorem createTask_title_invariant_amended (tasks : List Task) (td : TaskData)
    (id created : String) (hts : ∀ t ∈ tasks, t.title ≠ "")
    (htd : td.title ≠ "") :
    ∀ t ∈ (createTask tasks td id created).2, t.title ≠ "" := by
  intro t ht
  simp only [createTask, List.mem_append, List.mem_singleton] at ht
  rcases ht with ht | rfl
  · exact hts t ht
  · exact htd

/-- Witness for the amended C7 at a concrete input. -/
theorem createTask_title_invariant_amended_witness :
    (∀ t ∈ ([] : List Task), t.title ≠ "") ∧ milkTitleData.title ≠ "" ∧
      ∀ t ∈ (createTask [] milkTitleData "t1" "now").2, t.title ≠ "" :=
  ⟨by simp, by decide,
    createTask_title_invariant_amended [] milkTitleData "t1" "now"
      (by simp) (by decide)⟩

/-! ## C6: CSV export format -/

theorem escQuotes_eq_spec (cs : List Char) :
    escQuotes cs = specDoubleQuotes cs := by
  induction cs with
  | nil => rfl
  | cons c cs ih =>
    by_cases hc : c = '"' <;> simp [escQuotes, specDoubleQuotes, hc, ih]

theorem csvField_eq_spec (s : String) : csvField s = specCsvCell s := by
  unfold csvField specCsvCell
  apply String.ext
  simp [String.data_append, escQuotes_eq_spec]

theorem csvRow_eq_spec (projects : List Project) (t : Task) :
    csvRow projects t = specCsvRow projects t := by
  unfold csvRow specCsvRow
  simp only [List.map_cons, List.map_nil, csvField_eq_spec]

/-- C6: the CSV export is the unquoted header line followed by one row
per task with the columns title, description, due date, project name,
semicolon-joined tags, done yes/no, creation timestamp — every field
enclosed in double quotes with embedded double quotes doubled — and in
particular the title `Say "hi"` renders as `"Say ""hi"""`. -/
theorem convertToCSV_format (projects : List Project) (tasks : List Task) :
    convertToCSV projects tasks =
      String.intercalate "\n"
        ("Title,Description,Due Date,Project,Tags,Done,Created" ::
          tasks.map (specCsvRow projects)) ∧
    csvField "Say \"hi\"" = "\"Say \"\"hi\"\"\"" := by
  refine ⟨?_, by decide⟩
  unfold convertToCSV
  rw [show tasks.map (csvRow projects) = tasks.map (specCsvRow projects) from
    List.map_congr_left (fun t _ => csvRow_eq_spec projects t)]

/-! ## C8: the service-worker fetch handler -/

/-- C8 counterexample: the handler gates on `url.startsWith("http")`
rather than on the scheme, so a GET request to the non-http(s) scheme
`httpx:` does not pass through untouched — the claim as stated is
false. -/
theorem handleFetch_scheme_counterexample :
    isHttpScheme "httpx://a" = false ∧
    (handleFetch [] (fun _ => none) ⟨"GET", "httpx://a"⟩).1 ≠
      FetchOutcome.passthrough := by
  decide

/-- C8 (amended): non-GET requests and requests whose URL does not
start with `"http"` pass through untouched; a GET whose URL starts with
`"http"` is answered from the cache on a hit; on a miss the network is
consulted, and the response is stored in the cache before being
returned exactly when it has status 200 and is not of error type; a
network failure resolves the request with no response. -/
theorem handleFetch_spec_amended (cache : SwCache)
    (net : String → Option SwResponse) (req : SwRequest) :
    (req.method ≠ "GET" → handleFetch cache net req = (.passthrough, cache)) ∧
    (strStartsWith req.url "http" = false →
      handleFetch cache net req = (.passthrough, cache)) ∧
    (∀ r, req.method = "GET" → strStartsWith req.url "http" = true →
      cacheMatch cache req.url = some r →
      handleFetch cache net req = (.responded (some r), cache)) ∧
    (∀ resp, req.method = "GET" → strStartsWith req.url "http" = true →
      cacheMatch cache req.url = none → net req.url = some resp →
      (handleFetch cache net req).1 = .responded (some resp) ∧
      (cacheMatch (handleFetch cache net req).2 req.url = some resp ↔
        resp.status = 200 ∧ resp.rtype ≠ "error") ∧
      (resp.status = 200 ∧ resp.rtype ≠ "error" →
        (handleFetch cache net req).2 = cachePut cache req.url resp) ∧
      (¬(resp.status = 200 ∧ resp.rtype ≠ "error") →
        (handleFetch cache net req).2 = cache)) ∧
    (req.method = "GET" → strStartsWith req.url "http" = true →
      cacheMatch cache req.url = none → net req.url = none →
      handleFetch cache net req = (.responded none, cache)) := by
  refine ⟨?_, ?_, ?_, ?_, ?_⟩
  · intro h
    simp [handleFetch, h]
  · intro h
    by_cases hm : req.method = "GET" <;> simp [handleFetch, hm, h]
  · intro r hm hs hc
    simp [handleFetch, hm, hs, hc]
  · intro resp hm hs hc hn
    have hh : handleFetch cache net req =
        if (resp.status ≠ 200 || resp.rtype == "error") then
          (.responded (some resp), cache)
        else (.responded (some resp), cachePut cache req.url resp) := by
      simp [handleFetch, hm, hs, hc, hn]
    by_cases hcond : resp.status = 200 ∧ resp.rtype ≠ "error"
    · have hb : (decide (resp.status ≠ 200) || (resp.rtype == "error")) = false := by
        simp [hcond.1]
        exact hcond.2
      rw [hh, hb]
      simp only [Bool.false_eq_true, if_false, reduceIte]
      refine ⟨by trivial, ?_, by intro _; trivial, fun hx => absurd hcond hx⟩
      constructor
      · intro _; exact hcond
      · intro _
        simp [cacheMatch, cachePut]
    · have hb : (decide (resp.status ≠ 200) || (resp.rtype == "error")) = true := by
        rcases Decidable.not_and_iff_or_not.mp hcond with h1 | h1
        · simp [h1]
        · have : resp.rtype = "error" := by
            by_contra hco
            exact h1 hco
          simp [this]
      rw [hh, hb]
      simp only [if_true]
      refine ⟨by trivial, ?_, fun hx => absurd hx hcond, by intro _; trivial⟩
      rw [hc]
      constructor
      · intro hfalse; cases hfalse
      · intro hx; exact absurd hx hcond
  · intro hm hs hc hn
    simp [handleFetch, hm, hs, hc, hn]

/-- Witness for the amended C8: a cacheable 200 response on a cache
miss is returned and stored. -/
theorem handleFetch_spec_amended_witness :
    (reqGetHttps.method = "GET") ∧
    (strStartsWith reqGetHttps.url "http" = true) ∧
    (cacheMatch [] reqGetHttps.url = none) ∧
    (netOk reqGetHttps.url = some ⟨200, "basic"⟩) ∧
    ((handleFetch [] netOk reqGetHttps).1 =
        FetchOutcome.responded (some ⟨200, "basic"⟩) ∧
      (cacheMatch (handleFetch [] netOk reqGetHttps).2 reqGetHttps.url =
          some ⟨200, "basic"⟩ ↔
        (⟨200, "basic"⟩ : SwResponse).status = 200 ∧
          (⟨200, "basic"⟩ : SwResponse).rtype ≠ "error") ∧
      ((⟨200, "basic"⟩ : SwResponse).status = 200 ∧
          (⟨200, "basic"⟩ : SwResponse).rtype ≠ "error" →
        (handleFetch [] netOk reqGetHttps).2 =
          cachePut [] reqGetHttps.url ⟨200, "basic"⟩) ∧
      (¬((⟨200, "basic"⟩ : SwResponse).status = 200 ∧
          (⟨200, "basic"⟩ : SwResponse).rtype ≠ "error") →
        (handleFetch [] netOk reqGetHttps).2 = [])) :=
  ⟨rfl, by decide, rfl, rfl,
    (handleFetch_spec_amended [] netOk reqGetHttps).2.2.2.1
      ⟨200, "basic"⟩ rfl (by decide) rfl rfl⟩

/-! ## C5: JSON round trip and storage idempotence -/

theorem hexVal_hexDigit (n : Nat) (h : n < 16) :
    hexVal (hexDigit n) = some n := by
  interval_cases n <;> decide

theorem parseStringBody_escStr (s rest : List Char) :
    parseStringBody (escStr s ++ ('"' :: rest)) = some (s, rest) := by
  induction s with
  | nil =>
    rw [show escStr [] ++ ('"' :: rest) = '"' :: rest from rfl,
      parseStringBody.eq_def]
    simp
  | cons c cs ih =>
    rw [show escStr (c :: cs) = escChar c ++ escStr cs from rfl,
      List.append_assoc]
    by_cases h1 : c = '"'
    · subst h1
      rw [show escChar '"' = ['\\', '"'] from rfl]
      rw [show (['\\', '"'] : List Char) ++ (escStr cs ++ '"' :: rest) =
        '\\' :: '"' :: (escStr cs ++ '"' :: rest) from rfl,
        parseStringBody.eq_def]
      simp [unescChar, ih]
    by_cases h2 : c = '\\'
    · subst h2
      rw [show escChar '\\' = ['\\', '\\'] from rfl]
      rw [show (['\\', '\\'] : List Char) ++ (escStr cs ++ '"' :: rest) =
        '\\' :: '\\' :: (escStr cs ++ '"' :: rest) from rfl,
        parseStringBody.eq_def]
      simp [unescChar, ih]
    by_cases h3 : c = '\x08'
    · subst h3
      rw [show escChar '\x08' = ['\\', 'b'] from rfl]
      rw [show (['\\', 'b'] : List Char) ++ (escStr cs ++ '"' :: rest) =
        '\\' :: 'b' :: (escStr cs ++ '"' :: rest) from rfl,
        parseStringBody.eq_def]
      simp [unescChar, ih]
    by_cases h4 : c = '\t'
    · subst h4
      rw [show escChar '\t' = ['\\', 't'] from rfl]
      rw [show (['\\', 't'] : List Char) ++ (escStr cs ++ '"' :: rest) =
        '\\' :: 't' :: (escStr cs ++ '"' :: rest) from rfl,
        parseStringBody.eq_def]
      simp [unescChar, ih]
    by_cases h5 : c = '\n'
    · subst h5
      rw [show escChar '\n' = ['\\', 'n'] from rfl]
      rw [show (['\\', 'n'] : List Char) ++ (escStr cs ++ '"' :: rest) =
        '\\' :: 'n' :: (escStr cs ++ '"' :: rest) from rfl,
        parseStringBody.eq_def]
      simp [unescChar, ih]
    by_cases h6 : c = '\x0c'
    · subst h6
      rw [show escChar '\x0c' = ['\\', 'f'] from rfl]
      rw [show (['\\', 'f'] : List Char) ++ (escStr cs ++ '"' :: rest) =
        '\\' :: 'f' :: (escStr cs ++ '"' :: rest) from rfl,
        parseStringBody.eq_def]
      simp [unescChar, ih]
    by_cases h7 : c = '\r'
    · subst h7
      rw [show escChar '\r' = ['\\', 'r'] from rfl]
      rw [show (['\\', 'r'] : List Char) ++ (escStr cs ++ '"' :: rest) =
        '\\' :: 'r' :: (escStr cs ++ '"' :: rest) from rfl,
        parseStringBody.eq_def]
      simp [unescChar, ih]
    by_cases h8 : c.toNat < 32
    · have hhi : c.toNat / 16 < 16 := by omega
      have hlo : c.toNat % 16 < 16 := Nat.mod_lt _ (by norm_num)
      have h0 : hexVal '0' = some 0 := by decide
      have harith : 16 * (c.toNat / 16) + c.toNat % 16 = c.toNat :=
        Nat.div_add_mod c.toNat 16
      rw [show escChar c =
        ['\\', 'u', '0', '0', hexDigit (c.toNat / 16), hexDigit (c.toNat % 16)]
        from by simp [escChar, h1, h2, h3, h4, h5, h6, h7, h8]]
      rw [show (['\\', 'u', '0', '0', hexDigit (c.toNat / 16),
          hexDigit (c.toNat % 16)] : List Char) ++ (escStr cs ++ '"' :: rest) =
        '\\' :: 'u' :: '0' :: '0' :: hexDigit (c.toNat / 16) ::
          hexDigit (c.toNat % 16) :: (escStr cs ++ '"' :: rest) from rfl,
        parseStringBody.eq_def]
      simp [h0, hexVal_hexDigit _ hhi, hexVal_hexDigit _ hlo, ih]
      rw [harith]
      exact Char.ofNat_toNat c
    · rw [show escChar c = [c] from by
        simp [escChar, h1, h2, h3, h4, h5, h6, h7, h8]]
      rw [show ([c] : List Char) ++ (escStr cs ++ '"' :: rest) =
        c :: (escStr cs ++ '"' :: rest) from rfl, parseStringBody.eq_def]
      simp [if_neg h1, if_neg h2, ih]

theorem skipWs_cons (c : Char) (l : List Char)
    (h : ¬(c = ' ' ∨ c = '\t' ∨ c = '\n' ∨ c = '\r')) :
    skipWs (c :: l) = c :: l := by
  rw [skipWs.eq_def]
  simp [h]

/-- Every stringified value starts with one of the six value-head
characters. -/
theorem strJ_cons (v : JValue) :
    ∃ c cs, strJ v = c :: cs ∧
      (c = 'n' ∨ c = 't' ∨ c = 'f' ∨ c = '"' ∨ c = '[' ∨ c = '\x7b') := by
  cases v with
  | jnull => exact ⟨'n', ['u', 'l', 'l'], by simp [strJ], by simp⟩
  | jbool b => cases b with
    | true => exact ⟨'t', ['r', 'u', 'e'], by simp [strJ], by simp⟩
    | false => exact ⟨'f', ['a', 'l', 's', 'e'], by simp [strJ], by simp⟩
  | jstr s => exact ⟨'"', escStr s.data ++ ['"'], by simp [strJ], by simp⟩
  | jarr a => exact ⟨'[', strA a ++ [']'], by simp [strJ], by simp⟩
  | jobj o => exact ⟨'\x7b', strO o ++ ['\x7d'], by simp [strJ], by simp⟩

/-- A nonempty stringified array body starts with a value head. -/
theorem strA_cons_head (v : JValue) (tl : JArr) :
    ∃ c cs, strA (.acons v tl) = c :: cs ∧
      (c = 'n' ∨ c = 't' ∨ c = 'f' ∨ c = '"' ∨ c = '[' ∨ c = '\x7b') := by
  obtain ⟨c, cs, h1, hc⟩ := strJ_cons v
  cases tl with
  | anil => exact ⟨c, cs, by simp [strA, h1], hc⟩
  | acons w tl2 =>
    exact ⟨c, cs ++ ',' :: strA (.acons w tl2), by simp [strA, h1], hc⟩

/-- A nonempty stringified object body starts with the key quote. -/
theorem strO_cons_head (k : String) (v : JValue) (tl : JObj) :
    ∃ cs, strO (.ocons k v tl) = '"' :: cs := by
  cases tl with
  | onil => exact ⟨escStr k.data ++ '"' :: ':' :: strJ v, by simp [strO]⟩
  | ocons k2 w tl2 =>
    exact ⟨escStr k.data ++ '"' :: ':' ::
      (strJ v ++ ',' :: strO (.ocons k2 w tl2)), by simp [strO]⟩

mutual

/-- The parser inverts the stringifier on values, for any suffix. -/
theorem parseVal_strJ : ∀ (v : JValue) (rest : List Char) (fuel : Nat),
    needV v ≤ fuel → parseVal fuel (strJ v ++ rest) = some (v, rest)
  | v, _, 0, h => by
    exfalso
    have h1 : 1 ≤ needV v := by cases v <;> simp [needV]
    omega
  | .jnull, rest, fuel + 1, _ => by
    rw [show strJ .jnull ++ rest = 'n' :: 'u' :: 'l' :: 'l' :: rest from by
      simp [strJ]]
    have hskip : skipWs ('n' :: 'u' :: 'l' :: 'l' :: rest) =
        'n' :: 'u' :: 'l' :: 'l' :: rest := skipWs_cons _ _ (by decide)
    rw [parseVal.eq_def]
    simp [hskip]
  | .jbool true, rest, fuel + 1, _ => by
    rw [show strJ (.jbool true) ++ rest = 't' :: 'r' :: 'u' :: 'e' :: rest from by
      simp [strJ]]
    have hskip : skipWs ('t' :: 'r' :: 'u' :: 'e' :: rest) =
        't' :: 'r' :: 'u' :: 'e' :: rest := skipWs_cons _ _ (by decide)
    rw [parseVal.eq_def]
    simp [hskip]
  | .jbool false, rest, fuel + 1, _ => by
    rw [show strJ (.jbool false) ++ rest =
      'f' :: 'a' :: 'l' :: 's' :: 'e' :: rest from by simp [strJ]]
    have hskip : skipWs ('f' :: 'a' :: 'l' :: 's' :: 'e' :: rest) =
        'f' :: 'a' :: 'l' :: 's' :: 'e' :: rest := skipWs_cons _ _ (by decide)
    rw [parseVal.eq_def]
    simp [hskip]
  | .jstr s, rest, fuel + 1, _ => by
    rw [show strJ (.jstr s) ++ rest =
      '"' :: (escStr s.data ++ ('"' :: rest)) from by simp [strJ]]
    have hskip : skipWs ('"' :: (escStr s.data ++ ('"' :: rest))) =
        '"' :: (escStr s.data ++ ('"' :: rest)) := skipWs_cons _ _ (by decide)
    rw [parseVal.eq_def]
    simp [hskip, parseStringBody_escStr]
  | .jarr .anil, rest, fuel + 1, _ => by
    rw [show strJ (.jarr .anil) ++ rest = '[' :: ']' :: rest from by
      simp [strJ, strA]]
    have hskip1 : skipWs ('[' :: ']' :: rest) = '[' :: ']' :: rest :=
      skipWs_cons _ _ (by decide)
    have hskip2 : skipWs (']' :: rest) = ']' :: rest :=
      skipWs_cons _ _ (by decide)
    rw [parseVal.eq_def]
    simp [hskip1, hskip2]
  | .jarr (.acons v tl), rest, fuel + 1, h => by
    have h2 : needA (.acons v tl) ≤ fuel := by
      rw [show needV (.jarr (.acons v tl)) = 1 + needA (.acons v tl) from by
        simp [needV]] at h
      omega
    obtain ⟨c, cs, hA, hc⟩ := strA_cons_head v tl
    have hnws : ¬(c = ' ' ∨ c = '\t' ∨ c = '\n' ∨ c = '\r') := by
      rcases hc with rfl | rfl | rfl | rfl | rfl | rfl <;> decide
    have hnrb : ¬(c = ']') := by
      rcases hc with rfl | rfl | rfl | rfl | rfl | rfl <;> decide
    rw [show strJ (.jarr (.acons v tl)) ++ rest =
      '[' :: (strA (.acons v tl) ++ (']' :: rest)) from by simp [strJ]]
    rw [hA, List.cons_append]
    have hskip1 : skipWs ('[' :: c :: (cs ++ (']' :: rest))) =
        '[' :: c :: (cs ++ (']' :: rest)) := skipWs_cons _ _ (by decide)
    have hskip2 : skipWs (c :: (cs ++ (']' :: rest))) =
        c :: (cs ++ (']' :: rest)) := skipWs_cons _ _ hnws
    have hitems : parseItems fuel (c :: (cs ++ (']' :: rest))) =
        some (.acons v tl, rest) := by
      rw [← List.cons_append, ← hA]
      exact parseItems_strA (.acons v tl) rest fuel (by intro hx; cases hx) h2
    rw [parseVal.eq_def]
    simp [hskip1, hskip2, hnrb, hitems]
  | .jobj .onil, rest, fuel + 1, _ => by
    rw [show strJ (.jobj .onil) ++ rest = '\x7b' :: '\x7d' :: rest from by
      simp [strJ, strO]]
    have hskip1 : skipWs ('\x7b' :: '\x7d' :: rest) = '\x7b' :: '\x7d' :: rest :=
      skipWs_cons _ _ (by decide)
    have hskip2 : skipWs ('\x7d' :: rest) = '\x7d' :: rest :=
      skipWs_cons _ _ (by decide)
    rw [parseVal.eq_def]
    simp [hskip1, hskip2]
  | .jobj (.ocons k v tl), rest, fuel + 1, h => by
    have h2 : needO (.ocons k v tl) ≤ fuel := by
      rw [show needV (.jobj (.ocons k v tl)) = 1 + needO (.ocons k v tl) from by
        simp [needV]] at h
      omega
    obtain ⟨cs, hO⟩ := strO_cons_head k v tl
    rw [show strJ (.jobj (.ocons k v tl)) ++ rest =
      '\x7b' :: (strO (.ocons k v tl) ++ ('\x7d' :: rest)) from by simp [strJ]]
    rw [hO, List.cons_append]
    have hskip1 : skipWs ('\x7b' :: '"' :: (cs ++ ('\x7d' :: rest))) =
        '\x7b' :: '"' :: (cs ++ ('\x7d' :: rest)) := skipWs_cons _ _ (by decide)
    have hskip2 : skipWs ('"' :: (cs ++ ('\x7d' :: rest))) =
        '"' :: (cs ++ ('\x7d' :: rest)) := skipWs_cons _ _ (by decide)
    have hfields : parseFields fuel ('"' :: (cs ++ ('\x7d' :: rest))) =
        some (.ocons k v tl, rest) := by
      rw [← List.cons_append, ← hO]
      exact parseFields_strO (.ocons k v tl) rest fuel (by intro hx; cases hx) h2
    rw [parseVal.eq_def]
    simp [hskip1, hskip2, hfields]

/-- The parser inverts the stringifier on nonempty array bodies. -/
theorem parseItems_strA : ∀ (a : JArr) (rest : List Char) (fuel : Nat),
    a ≠ .anil → needA a ≤ fuel →
    parseItems fuel (strA a ++ (']' :: rest)) = some (a, rest)
  | .anil, _, _, hne, _ => absurd rfl hne
  | .acons v tl, _, 0, _, h => by
    exfalso
    rw [show needA (.acons v tl) = 1 + needV v + needA tl from by
      simp [needA]] at h
    omega
  | .acons v tl, rest, fuel + 1, _, h => by
    have hv : needV v ≤ fuel := by
      rw [show needA (.acons v tl) = 1 + needV v + needA tl from by
        simp [needA]] at h
      omega
    cases tl with
    | anil =>
      rw [show strA (.acons v .anil) ++ (']' :: rest) =
        strJ v ++ (']' :: rest) from by simp [strA]]
      have hval := parseVal_strJ v (']' :: rest) fuel hv
      have hskip : skipWs (']' :: rest) = ']' :: rest :=
        skipWs_cons _ _ (by decide)
      rw [parseItems.eq_def]
      simp [hval, hskip]
    | acons w tl2 =>
      have ht : needA (.acons w tl2) ≤ fuel := by
        rw [show needA (.acons v (.acons w tl2)) =
          1 + needV v + needA (.acons w tl2) from by simp [needA]] at h
        omega
      rw [show strA (.acons v (.acons w tl2)) ++ (']' :: rest) =
        strJ v ++ (',' :: (strA (.acons w tl2) ++ (']' :: rest))) from by
        simp [strA]]
      have hval := parseVal_strJ v
        (',' :: (strA (.acons w tl2) ++ (']' :: rest))) fuel hv
      have hskip : skipWs (',' :: (strA (.acons w tl2) ++ (']' :: rest))) =
          ',' :: (strA (.acons w tl2) ++ (']' :: rest)) :=
        skipWs_cons _ _ (by decide)
      have hitems := parseItems_strA (.acons w tl2) rest fuel
        (by intro hx; cases hx) ht
      rw [parseItems.eq_def]
      simp [hval, hskip, hitems]

/-- The parser inverts the stringifier on nonempty object bodies. -/
theorem parseFields_strO : ∀ (o : JObj) (rest : List Char) (fuel : Nat),
    o ≠ .onil → needO o ≤ fuel →
    parseFields fuel (strO o ++ ('\x7d' :: rest)) = some (o, rest)
  | .onil, _, _, hne, _ => absurd rfl hne
  | .ocons k v tl, _, 0, _, h => by
    exfalso
    rw [show needO (.ocons k v tl) = 1 + needV v + needO tl from by
      simp [needO]] at h
    omega
  | .ocons k v tl, rest, fuel + 1, _, h => by
    have hv : needV v ≤ fuel := by
      rw [show needO (.ocons k v tl) = 1 + needV v + needO tl from by
        simp [needO]] at h
      omega
    cases tl with
    | onil =>
      rw [show strO (.ocons k v .onil) ++ ('\x7d' :: rest) =
        '"' :: (escStr k.data ++ ('"' :: (':' :: (strJ v ++ ('\x7d' :: rest)))))
        from by simp [strO]]
      have hskip1 : skipWs ('"' ::
          (escStr k.data ++ ('"' :: (':' :: (strJ v ++ ('\x7d' :: rest)))))) =
          '"' :: (escStr k.data ++ ('"' :: (':' :: (strJ v ++ ('\x7d' :: rest))))) :=
        skipWs_cons _ _ (by decide)
      have hstr := parseStringBody_escStr k.data
        (':' :: (strJ v ++ ('\x7d' :: rest)))
      have hskip2 : skipWs (':' :: (strJ v ++ ('\x7d' :: rest))) =
          ':' :: (strJ v ++ ('\x7d' :: rest)) := skipWs_cons _ _ (by decide)
      have hval := parseVal_strJ v ('\x7d' :: rest) fuel hv
      have hskip3 : skipWs ('\x7d' :: rest) = '\x7d' :: rest :=
        skipWs_cons _ _ (by decide)
      rw [parseFields.eq_def]
      simp [hskip1, hstr, hskip2, hval, hskip3]
    | ocons k2 w tl2 =>
      have ht : needO (.ocons k2 w tl2) ≤ fuel := by
        rw [show needO (.ocons k v (.ocons k2 w tl2)) =
          1 + needV v + needO (.ocons k2 w tl2) from by simp [needO]] at h
        omega
      rw [show strO (.ocons k v (.ocons k2 w tl2)) ++ ('\x7d' :: rest) =
        '"' :: (escStr k.data ++ ('"' :: (':' :: (strJ v ++
          (',' :: (strO (.ocons k2 w tl2) ++ ('\x7d' :: rest)))))))
        from by simp [strO]]
      have hskip1 : skipWs ('"' :: (escStr k.data ++ ('"' :: (':' :: (strJ v ++
          (',' :: (strO (.ocons k2 w tl2) ++ ('\x7d' :: rest)))))))) =
          '"' :: (escStr k.data ++ ('"' :: (':' :: (strJ v ++
          (',' :: (strO (.ocons k2 w tl2) ++ ('\x7d' :: rest))))))) :=
        skipWs_cons _ _ (by decide)
      have hstr := parseStringBody_escStr k.data
        (':' :: (strJ v ++ (',' :: (strO (.ocons k2 w tl2) ++ ('\x7d' :: rest)))))
      have hskip2 : skipWs (':' :: (strJ v ++
          (',' :: (strO (.ocons k2 w tl2) ++ ('\x7d' :: rest))))) =
          ':' :: (strJ v ++
          (',' :: (strO (.ocons k2 w tl2) ++ ('\x7d' :: rest)))) :=
        skipWs_cons _ _ (by decide)
      have hval := parseVal_strJ v
        (',' :: (strO (.ocons k2 w tl2) ++ ('\x7d' :: rest))) fuel hv
      have hskip3 : skipWs (',' :: (strO (.ocons k2 w tl2) ++ ('\x7d' :: rest))) =
          ',' :: (strO (.ocons k2 w tl2) ++ ('\x7d' :: rest)) :=
        skipWs_cons _ _ (by decide)
      have hfields := parseFields_strO (.ocons k2 w tl2) rest fuel
        (by intro hx; cases hx) ht
      rw [parseFields.eq_def]
      simp [hskip1, hstr, hskip2, hval, hskip3, hfields]

end

mutual

theorem needV_le_length : ∀ v : JValue, needV v ≤ (strJ v).length
  | .jnull => by simp [needV, strJ]
  | .jbool true => by simp [needV, strJ]
  | .jbool false => by simp [needV, strJ]
  | .jstr s => by simp [needV, strJ]
  | .jarr a => by
    have h := needA_le_length a
    simp only [needV, strJ, List.length_cons, List.length_append,
      List.length_singleton]
    omega
  | .jobj o => by
    have h := needO_le_length o
    simp only [needV, strJ, List.length_cons, List.length_append,
      List.length_singleton]
    omega

theorem needA_le_length : ∀ a : JArr, needA a ≤ (strA a).length + 1
  | .anil => by simp [needA]
  | .acons v .anil => by
    have h := needV_le_length v
    simp only [needA, strA, List.length_cons, List.length_append]
    omega
  | .acons v (.acons w tl) => by
    have h1 := needV_le_length v
    have h2 := needA_le_length (.acons w tl)
    simp only [needA] at h2
    simp only [needA, strA, List.length_cons, List.length_append]
    omega

theorem needO_le_length : ∀ o : JObj, needO o ≤ (strO o).length + 1
  | .onil => by simp [needO]
  | .ocons k v .onil => by
    have h := needV_le_length v
    simp only [needO, strO, List.length_cons, List.length_append]
    omega
  | .ocons k v (.ocons k2 w tl) => by
    have h1 := needV_le_length v
    have h2 := needO_le_length (.ocons k2 w tl)
    simp only [needO] at h2
    simp only [needO, strO, List.length_cons, List.length_append]
    omega

end

/-- The full JSON round trip on strings: parsing a stringified document
recovers it exactly. -/
theorem jsonParse_jsonStringify (v : JValue) :
    jsonParse (jsonStringify v) = some v := by
  have hlen : needV v ≤ (strJ v).length + 1 :=
    le_trans (needV_le_length v) (by omega)
  have hp := parseVal_strJ v [] ((strJ v).length + 1) hlen
  rw [List.append_nil] at hp
  show (match parseVal ((strJ v).length + 1) (strJ v) with
    | some (w, rest) => if skipWs rest = [] then some w else none
    | none => none) = some v
  rw [hp]
  simp [skipWs]

/-- A stringified document is never the empty string. -/
theorem jsonStringify_ne_empty (v : JValue) : jsonStringify v ≠ "" := by
  obtain ⟨c, cs, h1, _⟩ := strJ_cons v
  unfold jsonStringify
  rw [h1]
  intro h
  exact absurd (congrArg String.data h) (by simp)

/-- C5: `save(load())` is idempotent — after any `saveData`, reading the
document back with `getData` and saving it again leaves the persisted
state (the stored bytes on the localStorage path, the stored document on
the IndexedDB path) exactly as it was. -/
theorem save_load_idempotent (st : StorageState) (v : JValue) :
    saveData (saveData st v) (getData (saveData st v)) = saveData st v := by
  by_cases hb : st.useIndexedDB
  · simp [saveData, getData, hb]
  · simp [saveData, getData, hb, jsonStringify_ne_empty v,
      jsonParse_jsonStringify v]

end LifeFlow
